import Mathlib

set_option maxRecDepth 100000

/-!
A shallow embedding of the node-replication flat-combining replica
(`src/replica.rs`) and of the benchmark stack data structure
(`benches/stack.rs`), together with theorems about their behaviour.

The sources ship only `replica.rs` and `stack.rs`; the per-thread `Context`,
the shared `Log` and the replica-local reader-writer lock are external modules
described in the design document (§4.1, §4.2, §4.4).  Those are modelled from
the spec, as marked on each definition.  The embedding is sequential: one
thread runs at a time, so atomic loads, CAS loops and volatile re-reads each
observe an unchanging value.
-/

namespace NodeRepl

/-- Maximum number of threads per replica (`MAX_THREADS_PER_REPLICA`,
replica.rs line 52). -/
def MAX_THREADS_PER_REPLICA : Nat := 256

/-- Modelled from the spec: the per-thread `Context` of §4.2 (`context.rs` is
not among the sources).  A FIFO of pending write operations, each stored with
the hash recorded at `enqueue` time, together with a FIFO of completed
responses awaiting the owner thread. -/
structure Ctx (W R : Type) where
  pending : List (W × Nat)
  resps : List R

/-- A fresh, empty context. -/
def Ctx.empty {W R : Type} : Ctx W R := ⟨[], []⟩

/-- Modelled from the spec: `Context::enqueue(op, hash) -> bool` (§4.2): push
the operation into the slot ring, failing when the ring already holds `B`
pending operations.  `none` models the `false` return. -/
def Ctx.enqueue {W R : Type} (c : Ctx W R) (B : Nat) (op : W) (hash : Nat) :
    Option (Ctx W R) :=
  if c.pending.length < B then
    some { c with pending := c.pending ++ [(op, hash)] }
  else none

/-- Modelled from the spec: `Context::ops(buffer, hash) -> count` (§4.2): drain,
in submission order, exactly the pending operations whose stored hash maps to
the same log shard (`L` is the number of shards); returns the drained
operations (appended by the caller to its staging buffer) and the remaining
context. -/
def Ctx.ops {W R : Type} (c : Ctx W R) (L hash : Nat) : List W × Ctx W R :=
  ((c.pending.filter fun q => q.2 % L == hash % L).map Prod.fst,
   { c with pending := c.pending.filter fun q => !(q.2 % L == hash % L) })

/-- Modelled from the spec: `Context::enqueue_resps` (§4.2): append responses
in the order in which the corresponding operations were drained. -/
def Ctx.enqueueResps {W R : Type} (c : Ctx W R) (rs : List R) : Ctx W R :=
  { c with resps := c.resps ++ rs }

/-- Modelled from the spec: `Context::res()` (§4.2): consume the oldest
completed response, if any. -/
def Ctx.res {W R : Type} (c : Ctx W R) : Option R × Ctx W R :=
  match c.resps with
  | [] => (none, c)
  | x :: rest => (some x, { c with resps := rest })

/-- Modelled from the spec: the shared log of §4.1 (`log.rs` is not among the
sources).  The model is sequential and unbounded: `entries` holds the totally
ordered `(op, origin replica id)` pairs, `ltails` the per-replica replay
cursors, `ctail` the completed-tail freshness watermark raised by `exec`, and
`nextReplica` the registration counter (the first id handed out is 1, matching
`test_replica_create`).  Wrap-around, alive bits and garbage collection
concern the bounded in-place buffer and are not represented. -/
structure Log (W : Type) where
  entries : List (W × Nat)
  ltails : Nat → Nat
  ctail : Nat
  nextReplica : Nat

/-- A fresh log: no entries, all cursors zero, first replica id will be 1. -/
def Log.new {W : Type} : Log W := ⟨[], fun _ => 0, 0, 1⟩

/-- Modelled from the spec: `Log::register` (§4.1). -/
def Log.register {W : Type} (l : Log W) : Nat × Log W :=
  (l.nextReplica, { l with nextReplica := l.nextReplica + 1 })

/-- Modelled from the spec: `Log::append(batch, rid, f)` (§4.1).  The GC
callback is never invoked in the unbounded model. -/
def Log.append {W : Type} (l : Log W) (batch : List W) (rid : Nat) : Log W :=
  { l with entries := l.entries ++ batch.map (fun o => (o, rid)) }

/-- Modelled from the spec: `Log::exec(rid, f)` (§4.1): fold the callback over
the entries between the replica's local tail and the log tail, advance the
local tail to the tail, and raise `ctail` (the watermark consulted by
`is_replica_synced_for_reads`, as exercised by
`test_replica_execute_not_synced`). -/
def Log.exec {W σ : Type} (l : Log W) (rid : Nat) (f : σ → W × Nat → σ)
    (init : σ) : Log W × σ :=
  ({ l with
      ltails := fun x => if x = rid then l.entries.length else l.ltails x,
      ctail := max l.ctail l.entries.length },
   (l.entries.drop (l.ltails rid)).foldl f init)

/-- Modelled from the spec: `Log::get_ctail` (§4.1). -/
def Log.getCtail {W : Type} (l : Log W) : Nat := l.ctail

/-- Modelled from the spec: `Log::is_replica_synced_for_reads(rid, t)` (§4.1):
true iff the replica's local tail has reached `t`. -/
def Log.isReplicaSyncedForReads {W : Type} (l : Log W) (rid t : Nat) : Bool :=
  decide (t ≤ l.ltails rid)

/-- Modelled from the spec: the ambient parameters of the generic replica —
the user's `Dispatch` implementation (§6: read dispatcher, deterministic write
dispatcher, default initial state), the `DefaultHasher` digests of write and
read operations (the standard hasher is a deterministic pure function of the
operation), and the context batch size `B`. -/
structure Params (W RO R St : Type) where
  dispatch : St → RO → R
  dispatchMut : St → W → St × R
  hashW : W → Nat
  hashR : RO → Nat
  batchSize : Nat
  dflt : St

variable {W RO R St : Type}

/-- The `Replica` state of replica.rs lines 68-115: thread-id counter `next`,
the backing logs `slog`, the data structure `data` (the reader-writer lock of
§4.4 is abstracted away — the sequential model accesses the state directly),
the per-log replica ids `idx`, the per-log combiner locks `combiners`, the
per-thread contexts, the per-log staging buffer, the `inflight` counter array
and the `result` staging buffer. -/
structure Replica (W RO R St : Type) where
  next : Nat
  slog : List (Log W)
  data : St
  idx : List Nat
  combiners : List Nat
  contexts : List (Ctx W R)
  buffer : List (List W)
  inflight : List Nat
  result : List R

/-- Register a replica with each log in turn, as the loop in `Replica::new`
(replica.rs lines 195-198) does; returns the ids and the updated logs. -/
def registerLogs {W : Type} : List (Log W) → List Nat × List (Log W)
  | [] => ([], [])
  | l :: ls =>
      let p := l.register
      let rest := registerLogs ls
      (p.1 :: rest.1, p.2 :: rest.2)

/-- `Replica::new` (replica.rs lines 184-248): register with every log, start
the thread-id counter at 1, allocate one free combiner lock and one staging
buffer per log, `MAX_THREADS_PER_REPLICA` empty contexts and zeroed inflight
counters, and the default-constructed data structure. -/
def Replica.new (p : Params W RO R St) (logs : List (Log W)) :
    Replica W RO R St :=
  let reg := registerLogs logs
  { next := 1
    slog := reg.2
    data := p.dflt
    idx := reg.1
    combiners := List.replicate logs.length 0
    contexts := List.replicate MAX_THREADS_PER_REPLICA Ctx.empty
    buffer := List.replicate logs.length []
    inflight := List.replicate MAX_THREADS_PER_REPLICA 0
    result := [] }

/-- `Replica::register` (replica.rs lines 295-310) with the thread limit as a
parameter.  In the sequential model the CAS on `next` always succeeds, so the
retry loop collapses to one attempt: hand out the current `next` unless it
exceeds the limit. -/
def Replica.registerAux (r : Replica W RO R St) (maxT : Nat) :
    Option (Nat × Replica W RO R St) :=
  if r.next > maxT then none
  else some (r.next, { r with next := r.next + 1 })

/-- `Replica::register` at the source's `MAX_THREADS_PER_REPLICA`. -/
def Replica.register (r : Replica W RO R St) :
    Option (Nat × Replica W RO R St) :=
  r.registerAux MAX_THREADS_PER_REPLICA

/-- The staging buffer collected by one combining round for bucket `hash`
(replica.rs lines 580-583): the matching operations of threads `1..next`, in
thread order, each thread's in submission order. -/
def Replica.combineBuffer (r : Replica W RO R St) (hash : Nat) : List W :=
  (((r.contexts.take (r.next - 1)).map
      (fun c => (c.ops r.slog.length hash).1)).flatten)

/-- The per-thread drained counts recorded into `inflight` by the collection
loop of replica.rs lines 580-583. -/
def Replica.combineCounts (r : Replica W RO R St) (hash : Nat) : List Nat :=
  (r.contexts.take (r.next - 1)).map
    (fun c => (c.ops r.slog.length hash).1.length)

/-- The callback the combiner passes to the log's exec (and append) phase
(replica.rs lines 588-606): dispatch the entry's operation against the local
state and, when the entry's origin is this replica's id `rid`, push the
response onto the result buffer. -/
def combineStepFn (g : St → W → St × R) (rid : Nat) :
    St × List R → W × Nat → St × List R :=
  fun acc e =>
    ((g acc.1 e.1).1,
     if e.2 = rid then acc.2 ++ [(g acc.1 e.1).2] else acc.2)

/-- The append and exec phases of one combining round (replica.rs lines
585-607): append the staged batch to the shard's log, then execute every
outstanding log entry against the local data structure, pushing into the
result buffer the response of each entry whose origin is this replica.
Returns the updated log, the updated data and the result buffer. -/
def Replica.combineExec (p : Params W RO R St) (r : Replica W RO R St)
    (hash : Nat) : Log W × St × List R :=
  let hashidx := hash % r.slog.length
  let rid := r.idx.getD hashidx 0
  let log1 := (r.slog.getD hashidx Log.new).append (r.combineBuffer hash) rid
  let ex := log1.exec rid (combineStepFn p.dispatchMut rid) (r.data, [])
  (ex.1, ex.2.1, ex.2.2)

/-- The response-distribution loop of replica.rs lines 609-622: walk the
per-thread counts; each thread with count `n` receives the next `n` responses
of the result buffer, and its count is reset to 0. -/
def distribute (counts : List Nat) (results : List R)
    (ctxs : List (Ctx W R)) : List (Ctx W R) × List Nat :=
  match counts, ctxs with
  | [], cs => (cs, [])
  | n :: ns, [] => ([], 0 :: (distribute ns (results.drop n) []).2)
  | n :: ns, c :: cs =>
      let c' := if n = 0 then c else c.enqueueResps (results.take n)
      let rest := distribute ns (results.drop n) cs
      (c' :: rest.1, 0 :: rest.2)

/-- `Replica::combine` (replica.rs lines 566-623): one round of flat
combining.  Snapshot `next` once; drain the matching operations of every
registered thread, recording the counts in `inflight`; append the batch and
execute the log suffix, collecting own-origin responses in the result buffer;
finally distribute the responses back and reset the counts. -/
def Replica.combine (p : Params W RO R St) (r : Replica W RO R St)
    (hash : Nat) : Replica W RO R St :=
  let hashidx := hash % r.slog.length
  let next := r.next
  let drained := (r.contexts.take (next - 1)).map
    (fun c => c.ops r.slog.length hash)
  let counts := r.combineCounts hash
  let ex := r.combineExec p hash
  let ctxs1 := drained.map Prod.snd ++ r.contexts.drop (next - 1)
  let dist := distribute counts ex.2.2 ctxs1
  { r with
      slog := r.slog.set hashidx ex.1
      data := ex.2.1
      contexts := dist.1
      inflight := dist.2 ++ r.inflight.drop (next - 1)
      buffer := r.buffer.set hashidx (r.combineBuffer hash)
      result := ex.2.2 }

/-- The up-to-4 volatile reads of the combiner lock in `Replica::try_combine`
(replica.rs lines 537-548); in the sequential model every read observes the
same value `c`.  Returns true when a nonzero lock was observed, in which case
the caller returns at once. -/
def lockObserved (c : Nat) : Nat → Bool
  | 0 => false
  | k + 1 => if c ≠ 0 then true else lockObserved c k

/-- `Replica::try_combine` (replica.rs lines 533-562): return at once if any
of the four volatile reads sees a nonzero combiner lock; otherwise CAS the
lock from 0 to the caller's thread id (in the sequential model the CAS
succeeds exactly when the lock is 0), run one combining round, and release the
lock by storing 0. -/
def Replica.tryCombine (p : Params W RO R St) (r : Replica W RO R St)
    (tid hash : Nat) : Replica W RO R St :=
  let hashidx := hash % r.slog.length
  if lockObserved (r.combiners.getD hashidx 0) 4 then r
  else if r.combiners.getD hashidx 0 ≠ 0 then r
  else
    let r1 := { r with combiners := r.combiners.set hashidx tid }
    let r2 := r1.combine p hash
    { r2 with combiners := r2.combiners.set hashidx 0 }

/-- `Replica::make_pending` (replica.rs lines 527-529): enqueue into the
calling thread's context. -/
def Replica.makePending (p : Params W RO R St) (r : Replica W RO R St)
    (op : W) (tid hash : Nat) : Option (Replica W RO R St) :=
  match (r.contexts.getD (tid - 1) Ctx.empty).enqueue p.batchSize op hash with
  | none => none
  | some c => some { r with contexts := r.contexts.set (tid - 1) c }

/-- The `while !self.make_pending(..)` loop of `Replica::execute_mut`
(replica.rs line 367), bounded by fuel: a failed enqueue is simply retried. -/
def Replica.makePendingLoop (p : Params W RO R St) (r : Replica W RO R St)
    (fuel : Nat) (op : W) (tid hash : Nat) : Option (Replica W RO R St) :=
  match fuel with
  | 0 => none
  | fuel + 1 =>
      match r.makePending p op tid hash with
      | some r' => some r'
      | none => r.makePendingLoop p fuel op tid hash

/-- `Replica::get_response` (replica.rs lines 432-458), bounded by fuel: poll
the thread's own context for a response; after `2 ^ 29` unsuccessful polls,
re-hash the operation, invoke `try_combine` with that hash, and reset the
poll counter. -/
def Replica.getResponse (p : Params W RO R St) (r : Replica W RO R St)
    (fuel idx : Nat) (op : W) (iter : Nat) : Option (R × Replica W RO R St) :=
  match fuel with
  | 0 => none
  | fuel + 1 =>
      match (r.contexts.getD (idx - 1) Ctx.empty).res with
      | (some resp, c') =>
          some (resp, { r with contexts := r.contexts.set (idx - 1) c' })
      | (none, _) =>
          if iter + 1 = 2 ^ 29 then
            (r.tryCombine p idx (p.hashW op)).getResponse p fuel idx op 0
          else
            r.getResponse p fuel idx op (iter + 1)

/-- `Replica::execute_mut` (replica.rs lines 357-374): hash the operation,
enqueue it (retrying while the context is full), call `try_combine` once,
then wait for the response in `get_response`. -/
def Replica.executeMut (p : Params W RO R St) (r : Replica W RO R St)
    (fuel : Nat) (op : W) (tid : Nat) : Option (R × Replica W RO R St) :=
  let hash := p.hashW op
  match r.makePendingLoop p fuel op tid hash with
  | none => none
  | some r1 =>
      let r2 := r1.tryCombine p tid hash
      r2.getResponse p fuel tid op 0

/-- The sync loop of `Replica::read_only` (replica.rs lines 516-519), bounded
by fuel: while the replica is not synced up to the snapshotted `ctail`, run
`try_combine`; once synced, dispatch the read against the local data. -/
def Replica.readOnlyLoop (p : Params W RO R St) (r : Replica W RO R St)
    (fuel : Nat) (op : RO) (tid hash hashidx ctail : Nat) :
    Option (R × Replica W RO R St) :=
  match fuel with
  | 0 => none
  | fuel + 1 =>
      if (r.slog.getD hashidx Log.new).isReplicaSyncedForReads
          (r.idx.getD hashidx 0) ctail then
        some (p.dispatch r.data op, r)
      else
        (r.tryCombine p tid hash).readOnlyLoop p fuel op tid hash hashidx ctail

/-- `Replica::read_only` (replica.rs lines 503-522): hash the read operation
to pick a shard, snapshot that shard's `ctail` once, then sync and dispatch. -/
def Replica.readOnly (p : Params W RO R St) (r : Replica W RO R St)
    (fuel : Nat) (op : RO) (tid : Nat) : Option (R × Replica W RO R St) :=
  let hash := p.hashR op
  let hashidx := hash % r.slog.length
  let ctail := (r.slog.getD hashidx Log.new).getCtail
  r.readOnlyLoop p fuel op tid hash hashidx ctail

/-- `Replica::execute` (replica.rs lines 422-428): forward to `read_only`. -/
def Replica.execute (p : Params W RO R St) (r : Replica W RO R St)
    (fuel : Nat) (op : RO) (idx : Nat) : Option (R × Replica W RO R St) :=
  r.readOnly p fuel op idx

/-- The public actions a thread can take on a replica; used to state
whole-history invariants. -/
inductive RAct (W RO : Type) where
  | doRegister : RAct W RO
  | doExecuteMut (fuel : Nat) (op : W) (tid : Nat) : RAct W RO
  | doExecute (fuel : Nat) (op : RO) (tid : Nat) : RAct W RO
  | doTryCombine (tid hash : Nat) : RAct W RO

/-- Apply one action to a replica (an action that runs out of fuel or fails
leaves the state unchanged). -/
def Replica.stepAct (p : Params W RO R St) (r : Replica W RO R St) :
    RAct W RO → Replica W RO R St
  | .doRegister =>
      match r.register with
      | some x => x.2
      | none => r
  | .doExecuteMut fuel op tid =>
      match r.executeMut p fuel op tid with
      | some x => x.2
      | none => r
  | .doExecute fuel op tid =>
      match r.execute p fuel op tid with
      | some x => x.2
      | none => r
  | .doTryCombine tid hash => r.tryCombine p tid hash

/-- Apply a list of actions in order. -/
def Replica.stepActs (p : Params W RO R St) (r : Replica W RO R St)
    (as : List (RAct W RO)) : Replica W RO R St :=
  as.foldl (fun s a => s.stepAct p a) r

/-- One `try_combine` call as a state transformer; `tcStep p tid hash` is
iterated to describe the combining attempts a spinning thread performs. -/
def tcStep (p : Params W RO R St) (tid hash : Nat) :
    Replica W RO R St → Replica W RO R St :=
  fun s => s.tryCombine p tid hash

/-- Apply the write dispatcher to a list of log entries in order, keeping only
the state; used to relate a replica's data to the log prefix it has played. -/
def applyEntries (p : Params W RO R St) (st : St) (es : List (W × Nat)) : St :=
  es.foldl (fun d e => (p.dispatchMut d e.1).1) st

/-- Coherence of a single-log replica: its local tail is within the log and
its data equals the user's default state advanced by exactly the log prefix
below that local tail. -/
def Coherent (p : Params W RO R St) (r : Replica W RO R St) : Prop :=
  r.slog.length = 1 ∧
  (r.slog.getD 0 Log.new).ltails (r.idx.getD 0 0)
      ≤ (r.slog.getD 0 Log.new).entries.length ∧
  r.data = applyEntries p p.dflt
    ((r.slog.getD 0 Log.new).entries.take
      ((r.slog.getD 0 Log.new).ltails (r.idx.getD 0 0)))

/-- Write operations of the benchmark stack (benches/stack.rs lines 19-26). -/
inductive OpWr where
  | push (v : Nat) : OpWr
  | pop : OpWr
deriving DecidableEq

/-- The benchmark stack (benches/stack.rs lines 31-47): a vector of 32-bit
integers; `push` appends, `pop` removes and returns the last element. -/
structure Stack where
  storage : List Nat
deriving DecidableEq

/-- `Stack::push` (benches/stack.rs lines 40-42). -/
def Stack.push (s : Stack) (v : Nat) : Stack := ⟨s.storage ++ [v]⟩

/-- `Stack::pop` (benches/stack.rs lines 44-46). -/
def Stack.pop (s : Stack) : Option Nat × Stack :=
  match s.storage.getLast? with
  | none => (none, s)
  | some v => (some v, ⟨s.storage.dropLast⟩)

/-- `impl Default for Stack` (benches/stack.rs lines 49-62): a dummy stack
pre-filled with the 50000 elements `0..50000`, pushed in that order. -/
def Stack.defaultStack : Stack :=
  (List.range 50000).foldl (fun s e => s.push e) ⟨[]⟩

/-- `dispatch_mut` for the stack (benches/stack.rs lines 75-86): push returns
`Ok(None)`, pop returns `Ok` of the popped element. -/
def Stack.dispatchMut (s : Stack) : OpWr → Stack × Except Unit (Option Nat)
  | .push v => (s.push v, Except.ok none)
  | .pop =>
      let x := s.pop
      (x.2, Except.ok x.1)

/-- Run a sequence of write operations through the stack dispatcher on a
single thread, collecting the responses in order. -/
def Stack.runOps (s : Stack) (ops : List OpWr) :
    Stack × List (Except Unit (Option Nat)) :=
  ops.foldl
    (fun acc op =>
      let x := Stack.dispatchMut acc.1 op
      (x.1, acc.2 ++ [x.2]))
    (s, [])

/-- Concrete dispatch parameters mirroring the unit-test `Data` structure of
replica.rs lines 634-652: state is a counter, every write increments it and
answers `Ok 107`, every read answers `Ok` of the counter.  The hash digest is
the identity on the operand, and the batch size is 32. -/
def pData : Params Nat Nat (Except Unit Nat) Nat :=
  { dispatch := fun d _ => Except.ok d
    dispatchMut := fun d _ => (d + 1, Except.ok 107)
    hashW := fun _ => 0
    hashR := fun _ => 0
    batchSize := 32
    dflt := 0 }

/-- A fresh replica over one log for the counter dispatcher. -/
def rData : Replica Nat Nat (Except Unit Nat) Nat :=
  Replica.new pData [Log.new]

/-- The replica `rData` after one thread registration (token 1). -/
def rData1 : Replica Nat Nat (Except Unit Nat) Nat :=
  { rData with next := 2 }

/-- The external-append scenario of `test_replica_execute_not_synced`
(replica.rs lines 807-819): operations 121 and 212 are appended to the log
with origin id 2 and executed by origin 2, off the side of the replica; then
one thread registers with the replica. -/
def rDataExt : Replica Nat Nat (Except Unit Nat) Nat :=
  { rData1 with
      slog := [((Log.new.register.2.append [121, 212] 2).exec 2
        (fun (u : Unit) _ => u) ()).1] }

/-- A replica whose shard-0 combiner lock is held by thread 8, as in
`test_replica_try_combine_fail` (replica.rs lines 752-764). -/
def rDataLocked : Replica Nat Nat (Except Unit Nat) Nat :=
  { rData1 with combiners := [8] }

/-- The replica `rData1` after thread 1 has enqueued operation 121 with hash 0
into its context, as `test_replica_try_combine` (replica.rs lines 724-735)
does via `make_pending`. -/
def rData1p : Replica Nat Nat (Except Unit Nat) Nat :=
  { rData1 with contexts := rData1.contexts.set 0 ⟨[(121, 0)], []⟩ }

/-- A replica whose thread-id counter has reached `MAX_THREADS_PER_REPLICA`
exactly (255 threads already registered). -/
def rDataAtMax : Replica Nat Nat (Except Unit Nat) Nat :=
  { rData with next := MAX_THREADS_PER_REPLICA }

/-- The outcome of the concrete `execute_mut` run used as evidence below
(default value never used: the run succeeds). -/
def exMutOut : Except Unit Nat × Replica Nat Nat (Except Unit Nat) Nat :=
  (rData1.executeMut pData 2 121 1).getD (Except.ok 0, rData1)

/-- The outcome of the concrete `read_only` run against the external-append
scenario (default value never used: the run succeeds). -/
def roOut : Except Unit Nat × Replica Nat Nat (Except Unit Nat) Nat :=
  (rDataExt.readOnly pData 3 11 1).getD (Except.ok 0, rDataExt)

/-- The outcome of a concrete `read_only` run against the already-synced
fresh replica (default value never used: the run succeeds at once). -/
def roOut1 : Except Unit Nat × Replica Nat Nat (Except Unit Nat) Nat :=
  (rData1.readOnly pData 1 11 1).getD (Except.ok 0, rData1)

/-- Call `register` with thread limit `maxT` a given number of times in
sequence, recording the returned ids (a failed call leaves the replica
unchanged, as the source's CAS loop does after returning `None`). -/
def registerChain (r : Replica W RO R St) (maxT : Nat) : Nat → List (Option Nat)
  | 0 => []
  | n + 1 =>
      match r.registerAux maxT with
      | none => none :: registerChain r maxT n
      | some x => some x.1 :: registerChain x.2 maxT n

/-- Dispatch parameters for the benchmark stack: write dispatcher from
benches/stack.rs; the read-operation type is empty (`OpRd` has no variants and
`dispatch` is `unreachable!()`); the default state is the pre-filled stack. -/
def pStack : Params OpWr Empty (Except Unit (Option Nat)) Stack :=
  { dispatch := fun _ e => e.elim
    dispatchMut := fun s op => Stack.dispatchMut s op
    hashW := fun _ => 0
    hashR := fun e => e.elim
    batchSize := 32
    dflt := Stack.defaultStack }

/-!  Theorems.  General-purpose list lemmas come first, then per-component
lemmas, then the statements settling the specification claims. -/

theorem getD_map_of_lt {α β : Type} (f : α → β) (l : List α) (j : Nat)
    (d : α) (d' : β) (h : j < l.length) :
    (l.map f).getD j d' = f (l.getD j d) := by
  rw [List.getD_eq_getElem?_getD, List.getD_eq_getElem?_getD, List.getElem?_map,
    List.getElem?_eq_getElem h]
  rfl

theorem getD_append_of_lt {α : Type} (l m : List α) (j : Nat) (d : α)
    (h : j < l.length) :
    (l ++ m).getD j d = l.getD j d := by
  rw [List.getD_eq_getElem?_getD, List.getD_eq_getElem?_getD,
    List.getElem?_append_left h]

theorem getD_take_of_lt {α : Type} (l : List α) (k j : Nat) (d : α)
    (h : j < k) :
    (l.take k).getD j d = l.getD j d := by
  rw [List.getD_eq_getElem?_getD, List.getD_eq_getElem?_getD,
    List.getElem?_take, if_pos h]

theorem getD_set_same_zero : ∀ (l : List Nat) (i : Nat),
    (l.set i 0).getD i 0 = 0
  | [], _ => rfl
  | _ :: _, 0 => rfl
  | _ :: xs, i + 1 => by simpa using getD_set_same_zero xs i

/-! Stack lemmas (claims C7 and C8). -/

theorem stack_foldl_push : ∀ (l acc : List Nat),
    (l.foldl (fun s e => Stack.push s e) ⟨acc⟩).storage = acc ++ l
  | [], acc => by simp
  | x :: xs, acc => by
      have h := stack_foldl_push xs (acc ++ [x])
      simpa [Stack.push] using h

theorem stack_default_storage : Stack.defaultStack.storage = List.range 50000 := by
  unfold Stack.defaultStack
  rw [stack_foldl_push]
  exact List.nil_append _

theorem stack_run_seq (s : Stack) :
    Stack.runOps s [OpWr.push 1, OpWr.push 2, OpWr.pop, OpWr.pop]
      = (s, [Except.ok none, Except.ok none,
             Except.ok (some 2), Except.ok (some 1)]) := by
  simp [Stack.runOps, Stack.dispatchMut, Stack.push, Stack.pop,
    List.getLast?_concat, List.dropLast_concat]

/-- Claim C7, counterexample: after the single-threaded sequence
`Push(1), Push(2), Pop, Pop` on the default-constructed benchmark stack the
internal stack is not empty (it still holds the 50000 pre-filled elements). -/
theorem stack_sequence_final_not_empty :
    (Stack.runOps Stack.defaultStack
        [OpWr.push 1, OpWr.push 2, OpWr.pop, OpWr.pop]).1.storage ≠ [] := by
  rw [stack_run_seq]
  simp [stack_default_storage, List.range_eq_nil]

/-- Claim C7 (amended): `dispatch_mut(Push v)` pushes and answers `Ok None`,
`dispatch_mut(Pop)` pops and answers `Ok` of the popped value; from the
default-constructed stack the sequence `Push(1), Push(2), Pop, Pop` yields
responses `None, None, Some 2, Some 1`, and afterwards the internal stack is
back to its initial contents — the 50000 pre-filled elements, not empty. -/
theorem stack_push_pop_sequence :
    Stack.runOps Stack.defaultStack [OpWr.push 1, OpWr.push 2, OpWr.pop, OpWr.pop]
      = (Stack.defaultStack,
         [Except.ok none, Except.ok none,
          Except.ok (some 2), Except.ok (some 1)]) ∧
    Stack.defaultStack.storage.length = 50000 := by
  refine ⟨stack_run_seq _, ?_⟩
  rw [stack_default_storage]
  simp

/-- Claim C8: `Stack::default()` is not empty — it holds exactly the 50000
elements `0, 1, …, 49999` in push order, and a replica constructed for the
stack dispatcher starts from that pre-filled state. -/
theorem stack_default_prefilled :
    Stack.defaultStack.storage = List.range 50000 ∧
    Stack.defaultStack.storage.length = 50000 ∧
    (∀ logs : List (Log OpWr),
      (Replica.new pStack logs).data.storage.length = 50000) := by
  refine ⟨stack_default_storage, ?_, ?_⟩
  · rw [stack_default_storage]; simp
  · intro logs
    show pStack.dflt.storage.length = 50000
    show Stack.defaultStack.storage.length = 50000
    rw [stack_default_storage]; simp

/-! Registration (claims C4 and C6). -/

/-- Claim C4, counterexample: with the thread-id counter `next` exactly at
`MAX_THREADS_PER_REPLICA`, `register` still succeeds (the source's condition
is `idx > MAX_THREADS_PER_REPLICA`, not `≥`), so "returns None exactly when
the next thread id is ≥ T_max" is false. -/
theorem register_at_max_succeeds :
    rDataAtMax.next = MAX_THREADS_PER_REPLICA ∧
    rDataAtMax.register
      = some (MAX_THREADS_PER_REPLICA,
              { rDataAtMax with next := MAX_THREADS_PER_REPLICA + 1 }) :=
  ⟨rfl, rfl⟩

/-- Claim C4 (amended): `register` returns `None` exactly when the next thread
id is strictly greater than `T_max`; in particular with `T_max = 4` four calls
succeed (ids 1,2,3,4) and the fifth returns `None`, reported as a nullable
token. -/
theorem register_none_iff_over_max :
    (∀ (α β γ δ : Type) (r : Replica α β γ δ) (maxT : Nat),
        r.registerAux maxT = none ↔ maxT < r.next) ∧
    (∀ (α β γ δ : Type) (r : Replica α β γ δ),
        r.register = none ↔ MAX_THREADS_PER_REPLICA < r.next) ∧
    registerChain rData 4 5 = [some 1, some 2, some 3, some 4, none] := by
  have haux : ∀ (α β γ δ : Type) (r : Replica α β γ δ) (maxT : Nat),
      r.registerAux maxT = none ↔ maxT < r.next := by
    intro α β γ δ r maxT
    unfold Replica.registerAux
    split
    · simpa using ‹r.next > maxT›
    · simp only [reduceCtorEq, false_iff]
      omega
  exact ⟨haux, fun α β γ δ r => haux α β γ δ r MAX_THREADS_PER_REPLICA, rfl⟩

/-- Witness for the amended claim C4: the iff applied at a concrete replica
whose counter exceeds the limit. -/
theorem register_none_iff_over_max_witness :
    rData1.registerAux 1 = none :=
  (register_none_iff_over_max.1 Nat Nat (Except Unit Nat) Nat rData1 1).mpr
    (by decide)

/-! The combiner lock (claim C5). -/

theorem lockObserved_of_ne (c : Nat) (h : c ≠ 0) (n : Nat) :
    lockObserved c (n + 1) = true := by
  simp [lockObserved, h]

theorem lockObserved_zero : ∀ n : Nat, lockObserved 0 n = false
  | 0 => rfl
  | n + 1 => by simpa [lockObserved] using lockObserved_zero n

/-- Claim C5: if the shard's combiner lock is nonzero, `try_combine` returns
the state entirely unchanged (no combining round, no mutation of the lock, the
data, the logs, the contexts or the staging buffers); if it is zero, the lock
is CAS-acquired with the caller's thread id, one combining round runs, and the
lock is released by storing 0 — in particular it is 0 again afterwards. -/
theorem tryCombine_lock_protocol (p : Params W RO R St)
    (r : Replica W RO R St) (tid hash : Nat) :
    (r.combiners.getD (hash % r.slog.length) 0 ≠ 0 →
        r.tryCombine p tid hash = r) ∧
    (r.combiners.getD (hash % r.slog.length) 0 = 0 →
      r.tryCombine p tid hash
        = { ({ r with combiners :=
                r.combiners.set (hash % r.slog.length) tid }.combine p hash) with
            combiners :=
              ({ r with combiners :=
                r.combiners.set (hash % r.slog.length) tid }.combine p hash).combiners.set
                (hash % r.slog.length) 0 } ∧
      (r.tryCombine p tid hash).combiners.getD (hash % r.slog.length) 0 = 0) := by
  constructor
  · intro h
    unfold Replica.tryCombine
    rw [if_pos (lockObserved_of_ne _ h 3)]
  · intro h
    have heq : r.tryCombine p tid hash
        = { ({ r with combiners :=
                r.combiners.set (hash % r.slog.length) tid }.combine p hash) with
            combiners :=
              ({ r with combiners :=
                r.combiners.set (hash % r.slog.length) tid }.combine p hash).combiners.set
                (hash % r.slog.length) 0 } := by
      simp only [Replica.tryCombine, h, lockObserved_zero]
      simp
    refine ⟨heq, ?_⟩
    rw [heq]
    exact getD_set_same_zero _ _

/-- Witness for claim C5: with the shard-0 combiner lock held by thread 8 (as
in `test_replica_try_combine_fail`), thread 1's `try_combine` is a no-op. -/
theorem tryCombine_lock_protocol_witness :
    rDataLocked.tryCombine pData 1 0 = rDataLocked :=
  (tryCombine_lock_protocol pData rDataLocked 1 0).1 (by decide)

/-! Field-preservation lemmas for the combining round and for `try_combine`. -/

theorem combine_next (p : Params W RO R St) (r : Replica W RO R St)
    (hash : Nat) : (r.combine p hash).next = r.next := rfl

theorem combine_idx (p : Params W RO R St) (r : Replica W RO R St)
    (hash : Nat) : (r.combine p hash).idx = r.idx := rfl

theorem combine_combiners (p : Params W RO R St) (r : Replica W RO R St)
    (hash : Nat) : (r.combine p hash).combiners = r.combiners := rfl

theorem combine_inflight (p : Params W RO R St) (r : Replica W RO R St)
    (hash : Nat) :
    (r.combine p hash).inflight
      = (distribute (r.combineCounts hash) ((r.combineExec p hash).2.2)
          (((r.contexts.take (r.next - 1)).map
              (fun c => c.ops r.slog.length hash)).map Prod.snd
            ++ r.contexts.drop (r.next - 1))).2
        ++ r.inflight.drop (r.next - 1) := rfl

theorem combine_contexts (p : Params W RO R St) (r : Replica W RO R St)
    (hash : Nat) :
    (r.combine p hash).contexts
      = (distribute (r.combineCounts hash) ((r.combineExec p hash).2.2)
          (((r.contexts.take (r.next - 1)).map
              (fun c => c.ops r.slog.length hash)).map Prod.snd
            ++ r.contexts.drop (r.next - 1))).1 := rfl

theorem combine_slog_length (p : Params W RO R St) (r : Replica W RO R St)
    (hash : Nat) : (r.combine p hash).slog.length = r.slog.length := by
  show (r.slog.set (hash % r.slog.length) _).length = r.slog.length
  exact List.length_set _ _ _

theorem tryCombine_next (p : Params W RO R St) (r : Replica W RO R St)
    (tid hash : Nat) : (r.tryCombine p tid hash).next = r.next := by
  simp only [Replica.tryCombine]
  split
  · rfl
  split
  · rfl
  · rfl

theorem tryCombine_idx (p : Params W RO R St) (r : Replica W RO R St)
    (tid hash : Nat) : (r.tryCombine p tid hash).idx = r.idx := by
  simp only [Replica.tryCombine]
  split
  · rfl
  split
  · rfl
  · rfl

theorem tryCombine_slog_length (p : Params W RO R St) (r : Replica W RO R St)
    (tid hash : Nat) : (r.tryCombine p tid hash).slog.length = r.slog.length := by
  simp only [Replica.tryCombine]
  split
  · rfl
  split
  · rfl
  · exact combine_slog_length p _ hash

theorem iterate_tc_next (p : Params W RO R St) (tid hash : Nat) :
    ∀ (k : Nat) (r : Replica W RO R St),
      ((tcStep p tid hash)^[k] r).next = r.next
  | 0, r => rfl
  | k + 1, r => by
      rw [Function.iterate_succ_apply]
      rw [iterate_tc_next p tid hash k]
      exact tryCombine_next p r tid hash

theorem iterate_tc_idx (p : Params W RO R St) (tid hash : Nat) :
    ∀ (k : Nat) (r : Replica W RO R St),
      ((tcStep p tid hash)^[k] r).idx = r.idx
  | 0, r => rfl
  | k + 1, r => by
      rw [Function.iterate_succ_apply]
      rw [iterate_tc_idx p tid hash k]
      exact tryCombine_idx p r tid hash

theorem iterate_tc_slog_length (p : Params W RO R St) (tid hash : Nat) :
    ∀ (k : Nat) (r : Replica W RO R St),
      ((tcStep p tid hash)^[k] r).slog.length = r.slog.length
  | 0, r => rfl
  | k + 1, r => by
      rw [Function.iterate_succ_apply]
      rw [iterate_tc_slog_length p tid hash k]
      exact tryCombine_slog_length p r tid hash

/-! Inversion lemmas: what a successful call tells us about its result. -/

theorem register_some_inv (r : Replica W RO R St) (i : Nat)
    (r' : Replica W RO R St) (h : r.register = some (i, r')) :
    i = r.next ∧ r' = { r with next := r.next + 1 } := by
  unfold Replica.register Replica.registerAux at h
  split at h
  · exact absurd h (by simp)
  · simp only [Option.some.injEq, Prod.mk.injEq] at h
    exact ⟨h.1.symm, h.2.symm⟩

theorem makePendingLoop_spec (p : Params W RO R St) (op : W) (tid hash : Nat) :
    ∀ (fuel : Nat) (r r₁ : Replica W RO R St),
      r.makePendingLoop p fuel op tid hash = some r₁ →
      ∃ c', (r.contexts.getD (tid - 1) Ctx.empty).enqueue p.batchSize op hash
              = some c' ∧
            r₁ = { r with contexts := r.contexts.set (tid - 1) c' }
  | 0, r, r₁ => by
      intro h
      exact absurd h (by simp [Replica.makePendingLoop])
  | fuel + 1, r, r₁ => by
      intro h
      simp only [Replica.makePendingLoop] at h
      split at h
      · rename_i r2 hmp
        injection h with h2
        subst h2
        unfold Replica.makePending at hmp
        split at hmp
        · exact absurd hmp (by simp)
        · rename_i c henq
          simp only [Option.some.injEq] at hmp
          exact ⟨c, henq, hmp.symm⟩
      · exact makePendingLoop_spec p op tid hash fuel r r₁ h

theorem getResponse_spec (p : Params W RO R St) (idx : Nat) (op : W) :
    ∀ (fuel : Nat) (r : Replica W RO R St) (iter : Nat) (resp : R)
      (r' : Replica W RO R St),
      r.getResponse p fuel idx op iter = some (resp, r') →
      ∃ (k : Nat) (c' : Ctx W R),
        (((tcStep p idx (p.hashW op))^[k] r).contexts.getD (idx - 1)
            Ctx.empty).res = (some resp, c') ∧
        r' = { ((tcStep p idx (p.hashW op))^[k] r) with
               contexts := ((tcStep p idx (p.hashW op))^[k] r).contexts.set
                 (idx - 1) c' }
  | 0, r, iter, resp, r' => by
      intro h
      exact absurd h (by simp [Replica.getResponse])
  | fuel + 1, r, iter, resp, r' => by
      intro h
      simp only [Replica.getResponse] at h
      split at h
      · rename_i resp0 c0 hres
        simp only [Option.some.injEq, Prod.mk.injEq] at h
        refine ⟨0, c0, ?_, ?_⟩
        · rw [Function.iterate_zero_apply, hres, h.1]
        · rw [Function.iterate_zero_apply]
          exact h.2.symm
      · rename_i c0 hres
        split at h
        · obtain ⟨k, c', hk1, hk2⟩ :=
            getResponse_spec p idx op fuel
              (r.tryCombine p idx (p.hashW op)) 0 resp r' h
          refine ⟨k + 1, c', ?_, ?_⟩
          · rw [Function.iterate_succ_apply]
            exact hk1
          · rw [Function.iterate_succ_apply]
            exact hk2
        · exact getResponse_spec p idx op fuel r (iter + 1) resp r' h

theorem readOnlyLoop_spec (p : Params W RO R St) (op : RO)
    (tid hash hashidx ctail : Nat) :
    ∀ (fuel : Nat) (r : Replica W RO R St) (resp : R)
      (r' : Replica W RO R St),
      r.readOnlyLoop p fuel op tid hash hashidx ctail = some (resp, r') →
      ∃ k : Nat,
        (((tcStep p tid hash)^[k] r).slog.getD hashidx
            Log.new).isReplicaSyncedForReads
          (((tcStep p tid hash)^[k] r).idx.getD hashidx 0) ctail = true ∧
        resp = p.dispatch ((tcStep p tid hash)^[k] r).data op ∧
        r' = (tcStep p tid hash)^[k] r
  | 0, r, resp, r' => by
      intro h
      exact absurd h (by simp [Replica.readOnlyLoop])
  | fuel + 1, r, resp, r' => by
      intro h
      simp only [Replica.readOnlyLoop] at h
      split at h
      · rename_i hsync
        simp only [Option.some.injEq, Prod.mk.injEq] at h
        refine ⟨0, ?_, ?_, ?_⟩
        · rw [Function.iterate_zero_apply]
          exact hsync
        · rw [Function.iterate_zero_apply]
          exact h.1.symm
        · rw [Function.iterate_zero_apply]
          exact h.2.symm
      · obtain ⟨k, hk1, hk2, hk3⟩ :=
          readOnlyLoop_spec p op tid hash hashidx ctail fuel
            (r.tryCombine p tid hash) resp r' h
        refine ⟨k + 1, ?_, ?_, ?_⟩
        · rw [Function.iterate_succ_apply]
          exact hk1
        · rw [Function.iterate_succ_apply]
          exact hk2
        · rw [Function.iterate_succ_apply]
          exact hk3

theorem executeMut_some_next (p : Params W RO R St) (r : Replica W RO R St)
    (fuel : Nat) (op : W) (tid : Nat) (resp : R) (r' : Replica W RO R St)
    (h : r.executeMut p fuel op tid = some (resp, r')) : r'.next = r.next := by
  simp only [Replica.executeMut] at h
  split at h
  · exact absurd h (by simp)
  · rename_i r1 hmp
    obtain ⟨c0, henq, hr1⟩ := makePendingLoop_spec p op tid (p.hashW op) fuel r r1 hmp
    obtain ⟨k, c', hk1, hk2⟩ :=
      getResponse_spec p tid op fuel (r1.tryCombine p tid (p.hashW op)) 0 resp r' h
    rw [hk2]
    show ((tcStep p tid (p.hashW op))^[k] (r1.tryCombine p tid (p.hashW op))).next = r.next
    rw [iterate_tc_next, tryCombine_next, hr1]

theorem readOnly_some_state (p : Params W RO R St) (r : Replica W RO R St)
    (fuel : Nat) (op : RO) (tid : Nat) (resp : R) (r' : Replica W RO R St)
    (h : r.readOnly p fuel op tid = some (resp, r')) :
    ∃ k : Nat, r' = (tcStep p tid (p.hashR op))^[k] r := by
  simp only [Replica.readOnly] at h
  obtain ⟨k, _, _, hk3⟩ :=
    readOnlyLoop_spec p op tid (p.hashR op) (p.hashR op % r.slog.length)
      ((r.slog.getD (p.hashR op % r.slog.length) Log.new).getCtail)
      fuel r resp r' h
  exact ⟨k, hk3⟩

theorem stepAct_next_mono (p : Params W RO R St) (r : Replica W RO R St)
    (a : RAct W RO) : r.next ≤ (r.stepAct p a).next := by
  cases a with
  | doRegister =>
      cases hreg : r.register with
      | none => simp only [Replica.stepAct, hreg]; exact Nat.le_refl _
      | some x =>
          simp only [Replica.stepAct, hreg]
          obtain ⟨hi, hr'⟩ := register_some_inv r x.1 x.2 (by rw [hreg])
          rw [hr']
          exact Nat.le_succ _
  | doExecuteMut fuel op tid =>
      cases hex : r.executeMut p fuel op tid with
      | none => simp only [Replica.stepAct, hex]; exact Nat.le_refl _
      | some x =>
          simp only [Replica.stepAct, hex]
          rw [executeMut_some_next p r fuel op tid x.1 x.2 (by rw [hex])]
  | doExecute fuel op tid =>
      cases hex : r.execute p fuel op tid with
      | none => simp only [Replica.stepAct, hex]; exact Nat.le_refl _
      | some x =>
          simp only [Replica.stepAct, hex]
          obtain ⟨k, hk⟩ := readOnly_some_state p r fuel op tid x.1 x.2 (by exact hex)
          rw [hk, iterate_tc_next]
  | doTryCombine tid hash =>
      simp only [Replica.stepAct]
      rw [tryCombine_next]

theorem stepActs_next_mono (p : Params W RO R St) :
    ∀ (acts : List (RAct W RO)) (r : Replica W RO R St),
      r.next ≤ (r.stepActs p acts).next
  | [], r => Nat.le_refl _
  | a :: as, r => by
      have h1 : r.next ≤ (r.stepAct p a).next := stepAct_next_mono p r a
      have h2 : (r.stepAct p a).next ≤ ((r.stepAct p a).stepActs p as).next :=
        stepActs_next_mono p as (r.stepAct p a)
      exact Nat.le_trans h1 h2

/-- Claim C6: the thread-id counter `next` starts at 1 in a fresh replica and
never decreases under any public action; a successful registration hands out
exactly the current counter (hence an id ≥ 1 — id 0, the free value of the
combiner lock, is never handed out) and bumps the counter by one; therefore
ids of successive successful registrations are strictly increasing, and an id
once handed out is never returned again. -/
theorem register_ids_monotone (p : Params W RO R St) :
    (∀ logs : List (Log W), (Replica.new p logs).next = 1) ∧
    (∀ (r : Replica W RO R St) (a : RAct W RO),
        r.next ≤ (r.stepAct p a).next) ∧
    (∀ (r : Replica W RO R St) (acts : List (RAct W RO)),
        r.next ≤ (r.stepActs p acts).next) ∧
    (∀ (r : Replica W RO R St) (i : Nat) (r' : Replica W RO R St),
        r.register = some (i, r') → 1 ≤ r.next →
          1 ≤ i ∧ i = r.next ∧ r'.next = i + 1) ∧
    (∀ (r : Replica W RO R St) (i : Nat) (r₁ : Replica W RO R St)
        (acts : List (RAct W RO)) (j : Nat) (r₂ : Replica W RO R St),
        r.register = some (i, r₁) →
        (r₁.stepActs p acts).register = some (j, r₂) → i < j) := by
  refine ⟨fun _ => rfl, stepAct_next_mono p,
    fun r acts => stepActs_next_mono p acts r, ?_, ?_⟩
  · intro r i r' h h1
    obtain ⟨hi, hr'⟩ := register_some_inv r i r' h
    subst hi
    exact ⟨h1, rfl, by rw [hr']⟩
  · intro r i r₁ acts j r₂ h1 h2
    obtain ⟨hi, hr₁⟩ := register_some_inv r i r₁ h1
    obtain ⟨hj, _⟩ := register_some_inv _ j r₂ h2
    have hm : r₁.next ≤ (r₁.stepActs p acts).next := stepActs_next_mono p acts r₁
    have hr₁n : r₁.next = i + 1 := by rw [hr₁, hi]
    omega

/-- Witness for claim C6: on a fresh replica two successive registrations
return ids 1 and 2, and the theorem yields 1 < 2. -/
theorem register_ids_monotone_witness :
    rData.register = some (1, rData1) ∧
    rData1.register = some (2, { rData1 with next := 3 }) ∧ (1 : Nat) < 2 :=
  ⟨rfl, rfl,
   (register_ids_monotone pData).2.2.2.2 rData 1 rData1 [] 2
     { rData1 with next := 3 } rfl rfl⟩

theorem distribute_snd_zero :
    ∀ (counts : List Nat) (results : List R) (ctxs : List (Ctx W R)) (x : Nat),
      x ∈ (distribute counts results ctxs).2 → x = 0
  | [], results, ctxs, x => by
      intro h
      simp [distribute] at h
  | n :: ns, results, [], x => by
      intro h
      simp only [distribute] at h
      rcases List.mem_cons.mp h with h | h
      · exact h
      · exact distribute_snd_zero ns (results.drop n) [] x h
  | n :: ns, results, c :: cs, x => by
      intro h
      simp only [distribute] at h
      rcases List.mem_cons.mp h with h | h
      · exact h
      · exact distribute_snd_zero ns (results.drop n) cs x h

theorem combine_inflight_zero (p : Params W RO R St) (r : Replica W RO R St)
    (hash : Nat) (hz : ∀ x ∈ r.inflight, x = 0) :
    ∀ x ∈ (r.combine p hash).inflight, x = 0 := by
  intro x hx
  rw [combine_inflight] at hx
  rcases List.mem_append.mp hx with h | h
  · exact distribute_snd_zero _ _ _ x h
  · exact hz x (List.mem_of_mem_drop h)

theorem tryCombine_inflight_zero (p : Params W RO R St)
    (r : Replica W RO R St) (tid hash : Nat) (hz : ∀ x ∈ r.inflight, x = 0) :
    ∀ x ∈ (r.tryCombine p tid hash).inflight, x = 0 := by
  simp only [Replica.tryCombine]
  split
  · exact hz
  split
  · exact hz
  · intro x hx
    exact combine_inflight_zero p _ hash hz x hx

theorem iterate_tc_inflight_zero (p : Params W RO R St) (tid hash : Nat) :
    ∀ (k : Nat) (r : Replica W RO R St), (∀ x ∈ r.inflight, x = 0) →
      ∀ x ∈ ((tcStep p tid hash)^[k] r).inflight, x = 0
  | 0, r, hz => hz
  | k + 1, r, hz => by
      rw [Function.iterate_succ_apply]
      exact iterate_tc_inflight_zero p tid hash k _
        (tryCombine_inflight_zero p r tid hash hz)

theorem executeMut_some_inflight_zero (p : Params W RO R St)
    (r : Replica W RO R St) (fuel : Nat) (op : W) (tid : Nat) (resp : R)
    (r' : Replica W RO R St) (h : r.executeMut p fuel op tid = some (resp, r'))
    (hz : ∀ x ∈ r.inflight, x = 0) : ∀ x ∈ r'.inflight, x = 0 := by
  simp only [Replica.executeMut] at h
  split at h
  · exact absurd h (by simp)
  · rename_i r1 hmp
    obtain ⟨c0, henq, hr1⟩ :=
      makePendingLoop_spec p op tid (p.hashW op) fuel r r1 hmp
    obtain ⟨k, c', hk1, hk2⟩ :=
      getResponse_spec p tid op fuel (r1.tryCombine p tid (p.hashW op)) 0 resp r' h
    rw [hk2]
    show ∀ x ∈ ((tcStep p tid (p.hashW op))^[k]
        (r1.tryCombine p tid (p.hashW op))).inflight, x = 0
    apply iterate_tc_inflight_zero
    apply tryCombine_inflight_zero
    rw [hr1]
    exact hz

theorem stepAct_inflight_zero (p : Params W RO R St) (r : Replica W RO R St)
    (a : RAct W RO) (hz : ∀ x ∈ r.inflight, x = 0) :
    ∀ x ∈ (r.stepAct p a).inflight, x = 0 := by
  cases a with
  | doRegister =>
      cases hreg : r.register with
      | none => simp only [Replica.stepAct, hreg]; exact hz
      | some x =>
          simp only [Replica.stepAct, hreg]
          obtain ⟨_, hr'⟩ := register_some_inv r x.1 x.2 (by rw [hreg])
          rw [hr']
          exact hz
  | doExecuteMut fuel op tid =>
      cases hex : r.executeMut p fuel op tid with
      | none => simp only [Replica.stepAct, hex]; exact hz
      | some x =>
          simp only [Replica.stepAct, hex]
          exact executeMut_some_inflight_zero p r fuel op tid x.1 x.2
            (by rw [hex]) hz
  | doExecute fuel op tid =>
      cases hex : r.execute p fuel op tid with
      | none => simp only [Replica.stepAct, hex]; exact hz
      | some x =>
          simp only [Replica.stepAct, hex]
          obtain ⟨k, hk⟩ := readOnly_some_state p r fuel op tid x.1 x.2 (by exact hex)
          rw [hk]
          exact iterate_tc_inflight_zero p tid (p.hashR op) k r hz
  | doTryCombine tid hash =>
      simp only [Replica.stepAct]
      exact tryCombine_inflight_zero p r tid hash hz

/-- Claim C10: every inflight counter is zero at replica construction, and the
all-zero state is an invariant: one combining round re-zeroes every counter it
set (the distribution loop resets them), and every public action preserves the
all-zero state — counts never leak from one round into the next. -/
theorem inflight_zero_invariant (p : Params W RO R St) :
    (∀ logs : List (Log W), ∀ x ∈ (Replica.new p logs).inflight, x = 0) ∧
    (∀ (r : Replica W RO R St) (hash : Nat), (∀ x ∈ r.inflight, x = 0) →
        ∀ x ∈ (r.combine p hash).inflight, x = 0) ∧
    (∀ (r : Replica W RO R St) (a : RAct W RO), (∀ x ∈ r.inflight, x = 0) →
        ∀ x ∈ (r.stepAct p a).inflight, x = 0) := by
  refine ⟨?_, combine_inflight_zero p, stepAct_inflight_zero p⟩
  intro logs x hx
  exact List.eq_of_mem_replicate hx

/-- Witness for claim C10: after a combining round on a replica with one
pending operation, every inflight counter evaluates to zero. -/
theorem inflight_zero_invariant_witness :
    ((rData1p.combine pData 0).inflight.all (fun x => x == 0)) = true := by
  rw [List.all_eq_true]
  intro x hx
  have hz : ∀ y ∈ rData1p.inflight, y = 0 := by
    have he : rData1p.inflight = List.replicate 256 0 := rfl
    rw [he]
    intro y hy
    exact List.eq_of_mem_replicate hy
  have := (inflight_zero_invariant pData).2.1 rData1p 0 hz x hx
  simpa using this

/-! Lemmas for the combining round (claim C1). -/

theorem foldl_resp_length (g : St → W → St × R) (rid : Nat) :
    ∀ (es : List (W × Nat)) (d : St) (rs : List R),
      ((es.foldl (combineStepFn g rid) (d, rs)).2).length
        = rs.length + es.countP (fun e => e.2 == rid)
  | [], d, rs => by simp
  | e :: es, d, rs => by
      simp only [List.foldl_cons, combineStepFn]
      rw [foldl_resp_length g rid es, List.countP_cons]
      by_cases he : e.2 = rid
      · simp [he]
        omega
      · have hb : (e.2 == rid) = false := beq_false_of_ne he
        simp [he, hb]

theorem combineCounts_sum (r : Replica W RO R St) (hash : Nat) :
    (r.combineCounts hash).sum = (r.combineBuffer hash).length := by
  unfold Replica.combineCounts Replica.combineBuffer
  rw [List.length_flatten, List.map_map]
  rfl

theorem combineExec_results_length (p : Params W RO R St)
    (r : Replica W RO R St) (hash : Nat)
    (hwf : (r.slog.getD (hash % r.slog.length) Log.new).ltails
            (r.idx.getD (hash % r.slog.length) 0)
          ≤ (r.slog.getD (hash % r.slog.length) Log.new).entries.length) :
    (r.combineBuffer hash).length ≤ ((r.combineExec p hash).2.2).length := by
  simp only [Replica.combineExec, Log.exec, Log.append]
  rw [List.drop_append_of_le_length hwf]
  rw [foldl_resp_length p.dispatchMut (r.idx.getD (hash % r.slog.length) 0)]
  rw [List.countP_append]
  have hall : ∀ a ∈ (r.combineBuffer hash).map
      (fun o => (o, r.idx.getD (hash % r.slog.length) 0)),
      (a.2 == r.idx.getD (hash % r.slog.length) 0) = true := by
    intro a ha
    obtain ⟨o, _, rfl⟩ := List.mem_map.mp ha
    simp
  rw [List.countP_eq_length.mpr hall, List.length_map]
  simp only [List.length_nil]
  omega

theorem distribute_get :
    ∀ (counts : List Nat) (results : List R) (ctxs : List (Ctx W R)) (j : Nat),
      j < counts.length → j < ctxs.length →
      ((distribute counts results ctxs).1.getD j Ctx.empty).pending
          = (ctxs.getD j Ctx.empty).pending ∧
      ((distribute counts results ctxs).1.getD j Ctx.empty).resps
          = (ctxs.getD j Ctx.empty).resps
            ++ (results.drop ((counts.take j).sum)).take (counts.getD j 0) ∧
      (distribute counts results ctxs).2.getD j 0 = 0
  | [], results, ctxs, j => by
      intro hj _
      exact absurd hj (by simp)
  | n :: ns, results, [], j => by
      intro _ hjc
      exact absurd hjc (by simp)
  | n :: ns, results, c :: cs, j => by
      intro hj hjc
      cases j with
      | zero =>
          simp only [distribute]
          refine ⟨?_, ?_, by simp⟩
          · by_cases hn : n = 0
            · simp [hn]
            · simp [hn, Ctx.enqueueResps]
          · by_cases hn : n = 0
            · simp [hn]
            · simp [hn, Ctx.enqueueResps]
      | succ j =>
          simp only [distribute, List.getD_cons_succ, List.take_succ_cons,
            List.sum_cons]
          have hj' : j < ns.length := by simpa using hj
          have hjc' : j < cs.length := by simpa using hjc
          obtain ⟨hp1, hp2, hp3⟩ := distribute_get ns (results.drop n) cs j hj' hjc'
          refine ⟨hp1, ?_, hp3⟩
          rw [hp2, List.drop_drop]

theorem distribute_snd_length :
    ∀ (counts : List Nat) (results : List R) (ctxs : List (Ctx W R)),
      (distribute counts results ctxs).2.length = counts.length
  | [], _, _ => rfl
  | n :: ns, results, [] => by
      simp only [distribute, List.length_cons]
      rw [distribute_snd_length ns (results.drop n) []]
  | n :: ns, results, c :: cs => by
      simp only [distribute, List.length_cons]
      rw [distribute_snd_length ns (results.drop n) cs]

/-- Claim C1: in one combining round for bucket `hash`, the combiner snapshots
`next` once (the round leaves it unchanged); for every registered thread
`i ∈ [1, next)` it records in `inflight[i-1]` exactly the number of that
thread's pending operations whose hash maps to the bucket's shard and drains
exactly those (the rest stay pending); after the append and exec phases thread
`i` receives, appended to its response FIFO, exactly the next `inflight[i-1]`
responses of the result buffer — the contiguous segment following the segments
of the threads drained before it, in drain order — and its inflight count is
reset to 0; the result buffer holds at least as many responses as were handed
out in total. -/
theorem combine_distributes (p : Params W RO R St) (r : Replica W RO R St)
    (hash i : Nat) (h1 : 1 ≤ i) (h2 : i < r.next)
    (hc : r.next - 1 ≤ r.contexts.length)
    (hwf : (r.slog.getD (hash % r.slog.length) Log.new).ltails
            (r.idx.getD (hash % r.slog.length) 0)
          ≤ (r.slog.getD (hash % r.slog.length) Log.new).entries.length) :
    (r.combine p hash).next = r.next ∧
    (r.combineCounts hash).getD (i - 1) 0
        = ((r.contexts.getD (i - 1) Ctx.empty).ops r.slog.length hash).1.length ∧
    ((r.combine p hash).contexts.getD (i - 1) Ctx.empty).pending
        = ((r.contexts.getD (i - 1) Ctx.empty).ops r.slog.length hash).2.pending ∧
    ((r.combine p hash).contexts.getD (i - 1) Ctx.empty).resps
        = (r.contexts.getD (i - 1) Ctx.empty).resps
            ++ (((r.combineExec p hash).2.2).drop
                (((r.combineCounts hash).take (i - 1)).sum)).take
              ((r.combineCounts hash).getD (i - 1) 0) ∧
    (r.combine p hash).inflight.getD (i - 1) 0 = 0 ∧
    (r.combineCounts hash).sum ≤ ((r.combineExec p hash).2.2).length := by
  have hj : i - 1 < r.next - 1 := by omega
  have htakelen : (r.contexts.take (r.next - 1)).length = r.next - 1 := by
    rw [List.length_take]
    omega
  have hcountslen : (r.combineCounts hash).length = r.next - 1 := by
    unfold Replica.combineCounts
    rw [List.length_map, htakelen]
  have hcounts_getD : (r.combineCounts hash).getD (i - 1) 0
      = ((r.contexts.getD (i - 1) Ctx.empty).ops r.slog.length hash).1.length := by
    unfold Replica.combineCounts
    rw [getD_map_of_lt _ _ _ Ctx.empty _ (by rw [htakelen]; exact hj)]
    rw [getD_take_of_lt _ _ _ _ hj]
  have hmaplen : (((r.contexts.take (r.next - 1)).map
      (fun c => c.ops r.slog.length hash)).map Prod.snd).length = r.next - 1 := by
    rw [List.length_map, List.length_map, htakelen]
  have hctxs1 : ((((r.contexts.take (r.next - 1)).map
        (fun c => c.ops r.slog.length hash)).map Prod.snd
      ++ r.contexts.drop (r.next - 1)).getD (i - 1) Ctx.empty)
      = ((r.contexts.getD (i - 1) Ctx.empty).ops r.slog.length hash).2 := by
    rw [getD_append_of_lt _ _ _ _ (by rw [hmaplen]; exact hj)]
    rw [getD_map_of_lt Prod.snd _ _ (([], Ctx.empty) : List W × Ctx W R) _
      (by rw [List.length_map, htakelen]; exact hj)]
    rw [getD_map_of_lt _ _ _ Ctx.empty _ (by rw [htakelen]; exact hj)]
    rw [getD_take_of_lt _ _ _ _ hj]
  obtain ⟨hd1, hd2, hd3⟩ := distribute_get (r.combineCounts hash)
    ((r.combineExec p hash).2.2)
    (((r.contexts.take (r.next - 1)).map
        (fun c => c.ops r.slog.length hash)).map Prod.snd
      ++ r.contexts.drop (r.next - 1)) (i - 1)
    (by rw [hcountslen]; exact hj)
    (by rw [List.length_append, hmaplen]; omega)
  have hsum : (r.combineCounts hash).sum
      ≤ ((r.combineExec p hash).2.2).length := by
    rw [combineCounts_sum]
    exact combineExec_results_length p r hash hwf
  refine ⟨rfl, hcounts_getD, ?_, ?_, ?_, hsum⟩
  · rw [combine_contexts, hd1, hctxs1]
  · rw [combine_contexts, hd2, hctxs1]
    rfl
  · rw [combine_inflight]
    rw [getD_append_of_lt _ _ _ _
      (by rw [distribute_snd_length, hcountslen]; exact hj)]
    exact hd3

/-- Witness for claim C1: the round on a one-log replica whose thread 1 has
one matching pending operation. -/
theorem combine_distributes_witness :
    (rData1p.combine pData 0).next = rData1p.next ∧
    (rData1p.combineCounts 0).getD 0 0
        = ((rData1p.contexts.getD 0 Ctx.empty).ops rData1p.slog.length 0).1.length ∧
    ((rData1p.combine pData 0).contexts.getD 0 Ctx.empty).pending
        = ((rData1p.contexts.getD 0 Ctx.empty).ops rData1p.slog.length 0).2.pending ∧
    ((rData1p.combine pData 0).contexts.getD 0 Ctx.empty).resps
        = (rData1p.contexts.getD 0 Ctx.empty).resps
            ++ (((rData1p.combineExec pData 0).2.2).drop
                (((rData1p.combineCounts 0).take 0).sum)).take
              ((rData1p.combineCounts 0).getD 0 0) ∧
    (rData1p.combine pData 0).inflight.getD 0 0 = 0 ∧
    (rData1p.combineCounts 0).sum ≤ ((rData1p.combineExec pData 0).2.2).length :=
  combine_distributes pData rData1p 0 1 (by decide) (by decide) (by decide)
    (by decide)

/-! Claim C2: execute_mut. -/

/-- Claim C2: a successful `execute_mut(op, token)` run has exactly this
shape: the operation is hashed and enqueued (with that hash) into the calling
thread's own context — the enqueue must succeed, possibly after retries that
leave the state unchanged; then `try_combine` runs once, followed by zero or
more further `try_combine` invocations issued by `get_response` (one after
every `2 ^ 29` unsuccessful polls, each re-hashing the same operation, so all
of them use the operation's hash); and the returned response is exactly the
one consumed from that thread's own context in the state so reached. -/
theorem executeMut_response_from_context (p : Params W RO R St)
    (r : Replica W RO R St) (fuel : Nat) (op : W) (tid : Nat) (resp : R)
    (r' : Replica W RO R St)
    (h : r.executeMut p fuel op tid = some (resp, r')) :
    ∃ (c0 : Ctx W R) (k : Nat) (c' : Ctx W R),
      (r.contexts.getD (tid - 1) Ctx.empty).enqueue p.batchSize op (p.hashW op)
          = some c0 ∧
      (((tcStep p tid (p.hashW op))^[k + 1]
          { r with contexts := r.contexts.set (tid - 1) c0 }).contexts.getD
          (tid - 1) Ctx.empty).res = (some resp, c') ∧
      r' = { ((tcStep p tid (p.hashW op))^[k + 1]
              { r with contexts := r.contexts.set (tid - 1) c0 }) with
             contexts :=
               ((tcStep p tid (p.hashW op))^[k + 1]
                 { r with contexts := r.contexts.set (tid - 1) c0 }).contexts.set
                 (tid - 1) c' } := by
  simp only [Replica.executeMut] at h
  split at h
  · exact absurd h (by simp)
  · rename_i r1 hmp
    obtain ⟨c0, henq, hr1⟩ :=
      makePendingLoop_spec p op tid (p.hashW op) fuel r r1 hmp
    obtain ⟨k, c', hk1, hk2⟩ :=
      getResponse_spec p tid op fuel (r1.tryCombine p tid (p.hashW op)) 0 resp r' h
    subst hr1
    refine ⟨c0, k, c', henq, ?_, ?_⟩
    · rw [Function.iterate_succ_apply]
      exact hk1
    · rw [Function.iterate_succ_apply]
      exact hk2

/-- Witness for claim C2: the concrete `execute_mut` run on a fresh one-log
replica with one registered thread returns the response `Ok 107` drawn from
thread 1's context after one combining round. -/
theorem executeMut_response_from_context_witness :
    ∃ (c0 : Ctx Nat (Except Unit Nat)) (k : Nat)
      (c' : Ctx Nat (Except Unit Nat)),
      (rData1.contexts.getD 0 Ctx.empty).enqueue pData.batchSize 121
          (pData.hashW 121) = some c0 ∧
      (((tcStep pData 1 (pData.hashW 121))^[k + 1]
          { rData1 with contexts := rData1.contexts.set 0 c0 }).contexts.getD
          0 Ctx.empty).res = (some exMutOut.1, c') ∧
      exMutOut.2 = { ((tcStep pData 1 (pData.hashW 121))^[k + 1]
              { rData1 with contexts := rData1.contexts.set 0 c0 }) with
             contexts :=
               ((tcStep pData 1 (pData.hashW 121))^[k + 1]
                 { rData1 with contexts := rData1.contexts.set 0 c0 }).contexts.set
                 0 c' } :=
  executeMut_response_from_context pData rData1 2 121 1 exMutOut.1 exMutOut.2
    (by rfl)

/-! Claim C3: read_only syncs before dispatching. -/

theorem applyEntries_append (p : Params W RO R St) (st : St)
    (es fs : List (W × Nat)) :
    applyEntries p st (es ++ fs) = applyEntries p (applyEntries p st es) fs := by
  unfold applyEntries
  exact List.foldl_append _ _ _ _

theorem foldl_pair_fst (p : Params W RO R St) (rid : Nat) :
    ∀ (es : List (W × Nat)) (d : St) (rs : List R),
      (es.foldl (combineStepFn p.dispatchMut rid) (d, rs)).1
        = applyEntries p d es
  | [], _, _ => rfl
  | e :: es, d, rs => by
      simp only [List.foldl_cons, combineStepFn, applyEntries]
      exact foldl_pair_fst p rid es _ _

theorem getD_set_same {α : Type} : ∀ (l : List α) (i : Nat) (a d : α),
    i < l.length → (l.set i a).getD i d = a
  | [], _, _, _, h => absurd h (by simp)
  | _ :: _, 0, _, _, _ => rfl
  | _ :: xs, i + 1, a, d, h => by
      simpa using getD_set_same xs i a d (by simpa using h)

theorem exec_append_coherent (p : Params W RO R St) (l : Log W) (rid : Nat)
    (batch : List W) (d : St)
    (hwf : l.ltails rid ≤ l.entries.length)
    (hdata : d = applyEntries p p.dflt (l.entries.take (l.ltails rid))) :
    ((((l.append batch rid).exec rid (combineStepFn p.dispatchMut rid)
        (d, [])).1).ltails rid
      = (((l.append batch rid).exec rid (combineStepFn p.dispatchMut rid)
          (d, [])).1).entries.length) ∧
    ((((l.append batch rid).exec rid (combineStepFn p.dispatchMut rid)
        (d, [])).2).1
      = applyEntries p p.dflt
          ((((l.append batch rid).exec rid (combineStepFn p.dispatchMut rid)
              (d, [])).1).entries)) := by
  constructor
  · simp [Log.exec, Log.append]
  · have hfst : ((((l.append batch rid).exec rid
        (combineStepFn p.dispatchMut rid) (d, [])).2).1)
        = applyEntries p d
            (((l.append batch rid).entries).drop (l.ltails rid)) := by
      exact foldl_pair_fst p rid _ _ _
    have hent : (((l.append batch rid).exec rid
        (combineStepFn p.dispatchMut rid) (d, [])).1).entries
        = l.entries ++ batch.map (fun o => (o, rid)) := rfl
    rw [hent, hfst, hdata, ← applyEntries_append]
    congr 1
    show l.entries.take (l.ltails rid)
        ++ ((l.entries ++ batch.map (fun o => (o, rid))).drop (l.ltails rid))
      = l.entries ++ batch.map (fun o => (o, rid))
    rw [← List.take_append_of_le_length hwf]
    exact List.take_append_drop _ _

theorem combine_coherent (p : Params W RO R St) (r : Replica W RO R St)
    (hash : Nat) (hco : Coherent p r) : Coherent p (r.combine p hash) := by
  obtain ⟨hL, hwf, hdata⟩ := hco
  have h0 : hash % r.slog.length = 0 := by rw [hL]; exact Nat.mod_one hash
  have hpos : 0 < r.slog.length := by rw [hL]; exact Nat.one_pos
  have hsl : (r.combine p hash).slog.getD 0 Log.new = (r.combineExec p hash).1 := by
    show (r.slog.set (hash % r.slog.length) (r.combineExec p hash).1).getD 0
        Log.new = (r.combineExec p hash).1
    rw [h0]
    exact getD_set_same _ _ _ _ hpos
  have hexx1 : (r.combineExec p hash).1
      = (((r.slog.getD 0 Log.new).append (r.combineBuffer hash)
          (r.idx.getD 0 0)).exec (r.idx.getD 0 0)
          (combineStepFn p.dispatchMut (r.idx.getD 0 0)) (r.data, [])).1 := by
    simp only [Replica.combineExec, h0]
  have hexx2 : (r.combineExec p hash).2.1
      = ((((r.slog.getD 0 Log.new).append (r.combineBuffer hash)
          (r.idx.getD 0 0)).exec (r.idx.getD 0 0)
          (combineStepFn p.dispatchMut (r.idx.getD 0 0)) (r.data, [])).2).1 := by
    simp only [Replica.combineExec, h0]
  obtain ⟨he1, he2⟩ := exec_append_coherent p (r.slog.getD 0 Log.new)
    (r.idx.getD 0 0) (r.combineBuffer hash) r.data hwf hdata
  refine ⟨?_, ?_, ?_⟩
  · rw [combine_slog_length]
    exact hL
  · rw [combine_idx, hsl, hexx1, he1]
  · have hdt : (r.combine p hash).data = (r.combineExec p hash).2.1 := rfl
    rw [hdt, hexx2, he2, combine_idx, hsl, hexx1, he1, List.take_length]

theorem tryCombine_coherent (p : Params W RO R St) (r : Replica W RO R St)
    (tid hash : Nat) (hco : Coherent p r) :
    Coherent p (r.tryCombine p tid hash) := by
  simp only [Replica.tryCombine]
  split
  · exact hco
  split
  · exact hco
  · exact combine_coherent p
      { r with combiners := r.combiners.set (hash % r.slog.length) tid } hash hco

theorem iterate_tc_coherent (p : Params W RO R St) (tid hash : Nat) :
    ∀ (k : Nat) (r : Replica W RO R St), Coherent p r →
      Coherent p ((tcStep p tid hash)^[k] r)
  | 0, _, hco => hco
  | k + 1, r, hco => by
      rw [Function.iterate_succ_apply]
      exact iterate_tc_coherent p tid hash k _
        (tryCombine_coherent p r tid hash hco)

/-- Claim C3: a successful `execute(op, token)` read on a coherent one-log
replica snapshots the shard's `ctail` once, spins through some number of
`try_combine` rounds, and dispatches only in a state whose local tail has
reached that snapshot; the returned value is the read dispatched against the
local data of that state, the final state is exactly that state, and its data
equals the default state advanced by precisely the log prefix below the local
tail — so every entry appended to the log before the read (index below the
snapshotted `ctail`) has been applied to the local replica before the
dispatch. -/
theorem readOnly_synced_dispatch (p : Params W RO R St)
    (r : Replica W RO R St) (fuel : Nat) (op : RO) (tid : Nat) (resp : R)
    (r' : Replica W RO R St)
    (h : r.readOnly p fuel op tid = some (resp, r')) (hco : Coherent p r) :
    ∃ k : Nat,
      (r.slog.getD 0 Log.new).ctail
          ≤ (((tcStep p tid (p.hashR op))^[k] r).slog.getD 0 Log.new).ltails
              (((tcStep p tid (p.hashR op))^[k] r).idx.getD 0 0) ∧
      resp = p.dispatch ((tcStep p tid (p.hashR op))^[k] r).data op ∧
      r' = (tcStep p tid (p.hashR op))^[k] r ∧
      ((tcStep p tid (p.hashR op))^[k] r).data
          = applyEntries p p.dflt
              ((((tcStep p tid (p.hashR op))^[k] r).slog.getD 0
                  Log.new).entries.take
                ((((tcStep p tid (p.hashR op))^[k] r).slog.getD 0
                    Log.new).ltails
                  (((tcStep p tid (p.hashR op))^[k] r).idx.getD 0 0))) := by
  have hL := hco.1
  have h0 : p.hashR op % r.slog.length = 0 := by
    rw [hL]
    exact Nat.mod_one _
  simp only [Replica.readOnly] at h
  obtain ⟨k, hsync, hresp, hr'⟩ :=
    readOnlyLoop_spec p op tid (p.hashR op) (p.hashR op % r.slog.length)
      ((r.slog.getD (p.hashR op % r.slog.length) Log.new).getCtail)
      fuel r resp r' h
  rw [h0] at hsync
  have hcok : Coherent p ((tcStep p tid (p.hashR op))^[k] r) :=
    iterate_tc_coherent p tid (p.hashR op) k r hco
  refine ⟨k, ?_, hresp, hr', hcok.2.2⟩
  simp only [Log.isReplicaSyncedForReads, decide_eq_true_eq,
    Log.getCtail] at hsync
  exact hsync

/-- Witness for claim C3: the external-append scenario of
`test_replica_execute_not_synced` — two operations appended to the log with
origin 2 off the side of the replica; the read returns `Ok 2`, reflecting
both, only after the replica synced up to the snapshotted `ctail`. -/
theorem readOnly_synced_dispatch_witness :
    roOut.1 = Except.ok 2 ∧
    (∃ k : Nat,
      (rDataExt.slog.getD 0 Log.new).ctail
          ≤ (((tcStep pData 1 (pData.hashR 11))^[k] rDataExt).slog.getD 0
              Log.new).ltails
              (((tcStep pData 1 (pData.hashR 11))^[k] rDataExt).idx.getD 0 0) ∧
      roOut.1 = pData.dispatch
          ((tcStep pData 1 (pData.hashR 11))^[k] rDataExt).data 11 ∧
      roOut.2 = (tcStep pData 1 (pData.hashR 11))^[k] rDataExt ∧
      ((tcStep pData 1 (pData.hashR 11))^[k] rDataExt).data
          = applyEntries pData pData.dflt
              ((((tcStep pData 1 (pData.hashR 11))^[k] rDataExt).slog.getD 0
                  Log.new).entries.take
                ((((tcStep pData 1 (pData.hashR 11))^[k] rDataExt).slog.getD 0
                    Log.new).ltails
                  (((tcStep pData 1 (pData.hashR 11))^[k] rDataExt).idx.getD
                    0 0)))) :=
  ⟨rfl, readOnly_synced_dispatch pData rDataExt 3 11 1 roOut.1 roOut.2 rfl
    ⟨rfl, by decide, rfl⟩⟩

/-! Claim C9: all shard computations for one operation agree. -/

theorem getD_set_ne {α : Type} (l : List α) (i j : Nat) (a d : α)
    (h : i ≠ j) : (l.set i a).getD j d = l.getD j d := by
  rw [List.getD_eq_getElem?_getD, List.getElem?_set_ne h,
    ← List.getD_eq_getElem?_getD]

theorem combine_slog_getD_ne (p : Params W RO R St) (r : Replica W RO R St)
    (hash j : Nat) (hj : j ≠ hash % r.slog.length) :
    (r.combine p hash).slog.getD j Log.new = r.slog.getD j Log.new := by
  show (r.slog.set (hash % r.slog.length) (r.combineExec p hash).1).getD j
      Log.new = r.slog.getD j Log.new
  exact getD_set_ne _ _ _ _ _ (Ne.symm hj)

theorem tryCombine_combiners_getD_ne (p : Params W RO R St)
    (r : Replica W RO R St) (tid hash j : Nat)
    (hj : j ≠ hash % r.slog.length) :
    (r.tryCombine p tid hash).combiners.getD j 0 = r.combiners.getD j 0 := by
  simp only [Replica.tryCombine]
  split
  · rfl
  split
  · rfl
  · rw [combine_combiners]
    rw [getD_set_ne _ _ _ _ _ (Ne.symm hj)]
    show (r.combiners.set (hash % r.slog.length) tid).getD j 0
        = r.combiners.getD j 0
    exact getD_set_ne _ _ _ _ _ (Ne.symm hj)

theorem tryCombine_slog_getD_ne (p : Params W RO R St)
    (r : Replica W RO R St) (tid hash j : Nat)
    (hj : j ≠ hash % r.slog.length) :
    (r.tryCombine p tid hash).slog.getD j Log.new = r.slog.getD j Log.new := by
  simp only [Replica.tryCombine]
  split
  · rfl
  split
  · rfl
  · exact combine_slog_getD_ne p
      { r with combiners := r.combiners.set (hash % r.slog.length) tid } hash j hj

theorem iterate_tc_frame (p : Params W RO R St) (tid hash : Nat) :
    ∀ (k : Nat) (r : Replica W RO R St) (j : Nat),
      j ≠ hash % r.slog.length →
      ((tcStep p tid hash)^[k] r).combiners.getD j 0
          = r.combiners.getD j 0 ∧
      ((tcStep p tid hash)^[k] r).slog.getD j Log.new
          = r.slog.getD j Log.new
  | 0, _, _, _ => ⟨rfl, rfl⟩
  | k + 1, r, j, hj => by
      rw [Function.iterate_succ_apply]
      have hj' : j ≠ hash % (r.tryCombine p tid hash).slog.length := by
        rw [tryCombine_slog_length]
        exact hj
      obtain ⟨ha, hb⟩ :=
        iterate_tc_frame p tid hash k (r.tryCombine p tid hash) j hj'
      exact ⟨ha.trans (tryCombine_combiners_getD_ne p r tid hash j hj),
             hb.trans (tryCombine_slog_getD_ne p r tid hash j hj)⟩

/-- Claim C9: shard selection is a deterministic function of the operation —
in the model `DefaultHasher` is a pure function, so the shard computed when
`execute_mut` enqueues, the shard of every `try_combine` retry issued by
`get_response` for that same operation, and the shard `read_only` picks for a
read all agree: an entire successful `execute_mut` run touches no combiner
lock and no log other than the ones at the write operation's hash-derived index
(the hash stored at enqueue time is again the operation's hash), and a
successful `read_only` run touches no combiner lock and no log other than the
one at the read operation's hash-derived index. -/
theorem shard_agreement (p : Params W RO R St) (r : Replica W RO R St)
    (fuelW fuelR : Nat) (op : W) (rop : RO) (tidW tidR : Nat)
    (respW : R) (rW : Replica W RO R St) (respR : R)
    (rR : Replica W RO R St) (jW jR : Nat)
    (hmut : r.executeMut p fuelW op tidW = some (respW, rW))
    (hro : r.readOnly p fuelR rop tidR = some (respR, rR))
    (hjW : jW ≠ p.hashW op % r.slog.length)
    (hjR : jR ≠ p.hashR rop % r.slog.length) :
    rW.combiners.getD jW 0 = r.combiners.getD jW 0 ∧
    rW.slog.getD jW Log.new = r.slog.getD jW Log.new ∧
    rR.combiners.getD jR 0 = r.combiners.getD jR 0 ∧
    rR.slog.getD jR Log.new = r.slog.getD jR Log.new ∧
    (∃ c0 : Ctx W R,
      (r.contexts.getD (tidW - 1) Ctx.empty).enqueue p.batchSize op
        (p.hashW op) = some c0) := by
  simp only [Replica.executeMut] at hmut
  split at hmut
  · exact absurd hmut (by simp)
  · rename_i r1 hmp
    obtain ⟨c0, henq, hr1⟩ :=
      makePendingLoop_spec p op tidW (p.hashW op) fuelW r r1 hmp
    obtain ⟨k, c', hk1, hk2⟩ :=
      getResponse_spec p tidW op fuelW (r1.tryCombine p tidW (p.hashW op)) 0
        respW rW hmut
    subst hr1
    obtain ⟨hfc, hfs⟩ := iterate_tc_frame p tidW (p.hashW op) (k + 1)
      { r with contexts := r.contexts.set (tidW - 1) c0 } jW hjW
    obtain ⟨k2, hk⟩ := readOnly_some_state p r fuelR rop tidR respR rR hro
    obtain ⟨hfc2, hfs2⟩ := iterate_tc_frame p tidR (p.hashR rop) k2 r jR hjR
    refine ⟨?_, ?_, ?_, ?_, ⟨c0, henq⟩⟩
    · rw [hk2]
      show ((tcStep p tidW (p.hashW op))^[k]
          ((tcStep p tidW (p.hashW op))
            { r with contexts := r.contexts.set (tidW - 1) c0 })).combiners.getD
          jW 0 = r.combiners.getD jW 0
      rw [← Function.iterate_succ_apply, hfc]
    · rw [hk2]
      show ((tcStep p tidW (p.hashW op))^[k]
          ((tcStep p tidW (p.hashW op))
            { r with contexts := r.contexts.set (tidW - 1) c0 })).slog.getD
          jW Log.new = r.slog.getD jW Log.new
      rw [← Function.iterate_succ_apply, hfs]
    · rw [hk]
      exact hfc2
    · rw [hk]
      exact hfs2

/-- Witness for claim C9: the concrete `execute_mut` and `read_only` runs on
the fresh one-log replica leave every combiner lock and log at an index other
than the operations' shard untouched. -/
theorem shard_agreement_witness :
    exMutOut.2.combiners.getD 5 0 = rData1.combiners.getD 5 0 ∧
    exMutOut.2.slog.getD 5 Log.new = rData1.slog.getD 5 Log.new ∧
    roOut1.2.combiners.getD 7 0 = rData1.combiners.getD 7 0 ∧
    roOut1.2.slog.getD 7 Log.new = rData1.slog.getD 7 Log.new ∧
    (∃ c0 : Ctx Nat (Except Unit Nat),
      (rData1.contexts.getD 0 Ctx.empty).enqueue pData.batchSize 121
        (pData.hashW 121) = some c0) :=
  shard_agreement pData rData1 2 1 121 11 1 1 exMutOut.1 exMutOut.2
    roOut1.1 roOut1.2 5 7 (by rfl) (by rfl) (by decide) (by decide)

end NodeRepl
